import Mathlib

/-!
Verification development for the RuSwitch layout-switcher.

Shallow embedding of the program's core modules:
* `keymap.py`   — layout tables, `remap_word`, `detect_script`
* `dictionary.py` — `DictionaryManager` (check / record_word / add_word / remove_word,
  and the user-data loader)
* `detector.py` — `LayoutDetector` (feed_char / force_check / clear_buffer and the
  skip patterns)
* `replacer.py` — `Replacer` (replace_word / undo_last, modelled as an action trace)

Words are modelled as `List Char` (a Python `str` is a sequence of code points);
string-valued tags from the source (`'ru'`, `'en'`, `'latin'`, `'en_to_ru'`, ...)
stay `String`.
-/

namespace RuSwitch

/-! ## Python character primitives

Models of the Python builtins the source calls, restricted to the character
ranges this program distinguishes (ASCII, Latin-1, Greek, and the Cyrillic
block U+0400–U+04FF). -/

/-- `c` is an ASCII letter. -/
def isAsciiLetter (c : Char) : Bool :=
  (('a' ≤ c) && (c ≤ 'z')) || (('A' ≤ c) && (c ≤ 'Z'))

/-- Model of Python `str.isalpha` per character, restricted to the scripts the
program distinguishes: ASCII letters, Latin-1 letters, Greek letters, and the
Cyrillic block U+0400–U+04FF (minus its non-letter code points U+0482–U+0489). -/
def pyIsAlpha (c : Char) : Bool :=
  let n := c.toNat
  isAsciiLetter c
  || ((192 ≤ n) && (n ≤ 214)) || ((216 ≤ n) && (n ≤ 246)) || ((248 ≤ n) && (n ≤ 255))
  || ((0x391 ≤ n) && (n ≤ 0x3a9) && !(n == 0x3a2)) || ((0x3b1 ≤ n) && (n ≤ 0x3c9))
  || ((0x400 ≤ n) && (n ≤ 0x4ff) && !((0x482 ≤ n) && (n ≤ 0x489)))

/-- Model of Python `str.isdigit` per character (ASCII digits). -/
def pyIsDigit (c : Char) : Bool :=
  ('0' ≤ c) && (c ≤ '9')

/-- Model of Python whitespace (`\s`), ASCII part. -/
def isSpaceChar (c : Char) : Bool :=
  c == ' ' || c == '\t' || c == '\n' || c == '\r' || c == '\x0b' || c == '\x0c'

/-- Regex `\w` in Python's Unicode mode: letters, digits, underscore. -/
def isWordChar (c : Char) : Bool :=
  pyIsAlpha c || pyIsDigit c || c == '_'

/-- Uppercase/lowercase pairs for Python `str.lower`, restricted to the ASCII
Latin and Russian Cyrillic letters this program stores. -/
def lowerPairs : List (Char × Char) :=
  [('A', 'a'), ('B', 'b'), ('C', 'c'), ('D', 'd'), ('E', 'e'), ('F', 'f'),
   ('G', 'g'), ('H', 'h'), ('I', 'i'), ('J', 'j'), ('K', 'k'), ('L', 'l'),
   ('M', 'm'), ('N', 'n'), ('O', 'o'), ('P', 'p'), ('Q', 'q'), ('R', 'r'),
   ('S', 's'), ('T', 't'), ('U', 'u'), ('V', 'v'), ('W', 'w'), ('X', 'x'),
   ('Y', 'y'), ('Z', 'z'),
   ('А', 'а'), ('Б', 'б'), ('В', 'в'), ('Г', 'г'), ('Д', 'д'), ('Е', 'е'),
   ('Ж', 'ж'), ('З', 'з'), ('И', 'и'), ('Й', 'й'), ('К', 'к'), ('Л', 'л'),
   ('М', 'м'), ('Н', 'н'), ('О', 'о'), ('П', 'п'), ('Р', 'р'), ('С', 'с'),
   ('Т', 'т'), ('У', 'у'), ('Ф', 'ф'), ('Х', 'х'), ('Ц', 'ц'), ('Ч', 'ч'),
   ('Ш', 'ш'), ('Щ', 'щ'), ('Ъ', 'ъ'), ('Ы', 'ы'), ('Ь', 'ь'), ('Э', 'э'),
   ('Ю', 'ю'), ('Я', 'я'), ('Ё', 'ё')]

/-- Model of Python `str.lower` per character (table-driven over `lowerPairs`). -/
def lowerChar (c : Char) : Char :=
  ((lowerPairs.find? (fun p => p.1 == c)).map (fun p => p.2)).getD c

/-- Model of Python `str.lower` on a word. -/
def pyLower (w : List Char) : List Char :=
  w.map lowerChar

/-! ## `keymap.py` -/

/-- `EN_TO_RU` from `keymap.py`: physical key positions, EN char → RU char,
in source order (unshifted rows first, then the shifted rows). -/
def EN_TO_RU : List (Char × Char) :=
  [('q', 'й'), ('w', 'ц'), ('e', 'у'), ('r', 'к'), ('t', 'е'), ('y', 'н'),
   ('u', 'г'), ('i', 'ш'), ('o', 'щ'), ('p', 'з'), ('[', 'х'), (']', 'ъ'),
   ('a', 'ф'), ('s', 'ы'), ('d', 'в'), ('f', 'а'), ('g', 'п'), ('h', 'р'),
   ('j', 'о'), ('k', 'л'), ('l', 'д'), (';', 'ж'), ('\x27', 'э'), ('z', 'я'),
   ('x', 'ч'), ('c', 'с'), ('v', 'м'), ('b', 'и'), ('n', 'т'), ('m', 'ь'),
   (',', 'б'), ('.', 'ю'), ('/', '.'), ('\x60', 'ё'),
   ('Q', 'Й'), ('W', 'Ц'), ('E', 'У'), ('R', 'К'), ('T', 'Е'), ('Y', 'Н'),
   ('U', 'Г'), ('I', 'Ш'), ('O', 'Щ'), ('P', 'З'), ('\x7b', 'Х'), ('\x7d', 'Ъ'),
   ('A', 'Ф'), ('S', 'Ы'), ('D', 'В'), ('F', 'А'), ('G', 'П'), ('H', 'Р'),
   ('J', 'О'), ('K', 'Л'), ('L', 'Д'), (':', 'Ж'), ('\x22', 'Э'), ('Z', 'Я'),
   ('X', 'Ч'), ('C', 'С'), ('V', 'М'), ('B', 'И'), ('N', 'Т'), ('M', 'Ь'),
   ('<', 'Б'), ('>', 'Ю'), ('?', ','), ('~', 'Ё')]

/-- `RU_TO_EN = {v: k for k, v in EN_TO_RU.items()}`: a Python dict
comprehension lets a later binding win, so lookup-first over the reversed
swapped list models the resulting dict. -/
def RU_TO_EN : List (Char × Char) :=
  (EN_TO_RU.map (fun p => (p.2, p.1))).reverse

/-- `table.get(ch, ch)`: look a character up in a layout table, keeping
unmapped characters as-is. -/
def remapChar (table : List (Char × Char)) (ch : Char) : Char :=
  ((table.find? (fun p => p.1 == ch)).map (fun p => p.2)).getD ch

/-- `remap_word` from `keymap.py`: remap character-by-character; any direction
string other than `'en_to_ru'` selects the RU→EN table. -/
def remap_word (word : List Char) (direction : String) : List Char :=
  let table := if direction == "en_to_ru" then EN_TO_RU else RU_TO_EN
  word.map (remapChar table)

/-- The Cyrillic range test from `detect_script`: `'Ѐ' <= ch <= 'ӿ'`. -/
def isCyrRange (c : Char) : Bool :=
  (0x400 ≤ c.toNat) && (c.toNat ≤ 0x4ff)

/-- The flag-accumulating loop of `detect_script`: which of the two
`has_latin` / `has_cyrillic` flags the word sets. -/
def scanFlags : List Char → Bool × Bool
  | [] => (false, false)
  | c :: rest =>
      let p := scanFlags rest
      if pyIsAlpha c then
        if isCyrRange c then (p.1, true) else (true, p.2)
      else p

/-- `detect_script` from `keymap.py`. -/
def detect_script (word : List Char) : String :=
  let p := scanFlags word
  if p.1 && p.2 then "mixed"
  else if p.1 then "latin"
  else if p.2 then "cyrillic"
  else "other"

/-! ## `config.py` — the fields the detector and dictionary read -/

/-- The `Config` dataclass fields used by `LayoutDetector` and
`DictionaryManager` (defaults `min_word_length = 2`,
`auto_learn_threshold = 3`). -/
structure Config where
  minWordLength : Nat := 2
  autoLearnThreshold : Nat := 3
deriving Repr, DecidableEq

/-! ## `dictionary.py`

Association-list helpers model the Python dict `_word_counts`: lookup returns
the bound value, assignment to an existing key replaces it in place, a new key
is appended, `del` removes the key. -/

/-- Python dict lookup (`d.get(k)`). -/
def alGet (l : List (List Char × Nat)) (k : List Char) : Option Nat :=
  (l.find? (fun p => p.1 == k)).map (fun p => p.2)

/-- Python dict assignment (`d[k] = v`): replace in place, or append. -/
def alSet (l : List (List Char × Nat)) (k : List Char) (v : Nat) :
    List (List Char × Nat) :=
  if l.any (fun p => p.1 == k) then
    l.map (fun p => if p.1 == k then (k, v) else p)
  else l ++ [(k, v)]

/-- Python `del d[k]`. -/
def alErase (l : List (List Char × Nat)) (k : List Char) :
    List (List Char × Nat) :=
  l.filter (fun p => !(p.1 == k))

/-- The dictionary state of `DictionaryManager`: base vocabularies
(`_ru_words`, `_en_words`, already lowercased at load time), the per-language
user vocabularies `_user_words['ru'] / ['en']`, and the learning counters
`_word_counts` keyed by the string `f"{language}:{word}"`. -/
structure DictState where
  ruWords : List (List Char)
  enWords : List (List Char)
  userRu : List (List Char)
  userEn : List (List Char)
  wordCounts : List (List Char × Nat)
deriving Repr, DecidableEq

/-- `DictionaryManager.check`: membership of the lowercased word in base ∪
user vocabulary; any language other than `'ru'` takes the English branch, as
in the source. -/
def check (word : List Char) (language : String) (st : DictState) : Bool :=
  let w := pyLower word
  if language == "ru" then w ∈ st.ruWords || w ∈ st.userRu
  else w ∈ st.enWords || w ∈ st.userEn

/-- The counter key `f"{language}:{w}"`. -/
def countKey (language : String) (w : List Char) : List Char :=
  language.toList ++ ':' :: w

/-- Insert into a user-vocabulary set (`set.add`): no-op when present. -/
def setAdd (s : List (List Char)) (w : List Char) : List (List Char) :=
  if w ∈ s then s else s ++ [w]

/-- Update the user vocabulary of one language. In the source
`self._user_words[language]` only has the keys `'ru'` and `'en'` fixed by
`__init__`; any other language raises `KeyError` there, which is outside the
scope of the claims (all hypotheses fix the language to `'ru'` or `'en'`). -/
def userAdd (st : DictState) (language : String) (w : List Char) : DictState :=
  if language == "ru" then { st with userRu := setAdd st.userRu w }
  else if language == "en" then { st with userEn := setAdd st.userEn w }
  else st

/-- `DictionaryManager.record_word`: count an unknown word, auto-learn it into
the user vocabulary once the counter reaches `auto_learn_threshold`. Returns
(learned, new state); persistence to disk is outside the model. -/
def record_word (word : List Char) (language : String) (st : DictState)
    (cfg : Config) : Bool × DictState :=
  let w := pyLower word
  if check w language st then (false, st)
  else
    let key := countKey language w
    let cnt := (alGet st.wordCounts key).getD 0 + 1
    let counts1 := alSet st.wordCounts key cnt
    if cfg.autoLearnThreshold ≤ cnt then
      (true, { userAdd st language w with wordCounts := alErase counts1 key })
    else
      (false, { st with wordCounts := counts1 })

/-- `DictionaryManager.add_word`: manual insert, also clears a pending
counter. -/
def add_word (word : List Char) (language : String) (st : DictState) :
    DictState :=
  let w := pyLower word
  let st1 := userAdd st language w
  { st1 with wordCounts := alErase st1.wordCounts (countKey language w) }

/-- `DictionaryManager.remove_word`. -/
def remove_word (word : List Char) (language : String) (st : DictState) :
    DictState :=
  let w := pyLower word
  if language == "ru" then { st with userRu := st.userRu.filter (· != w) }
  else if language == "en" then { st with userEn := st.userEn.filter (· != w) }
  else st

/-! ## `detector.py`

The five `_SKIP_PATTERNS` regexes are embedded as decidable full-match
recognizers (each pattern is a simple concatenation of character classes, so
`fullmatch` is equivalent to the stated decomposition). -/

/-- `https?://\S+` with `re.IGNORECASE` (the table-driven `lowerChar` folds
case on the ASCII prefix letters). -/
def matchUrl (w : List Char) : Bool :=
  let wl := pyLower w
  (wl.take 7 == "http://".toList && 8 ≤ w.length
      && (w.drop 7).all (fun c => !isSpaceChar c))
  || (wl.take 8 == "https://".toList && 9 ≤ w.length
      && (w.drop 8).all (fun c => !isSpaceChar c))

/-- `\S+@\S+\.\S+`: no whitespace, an `'@'` at position `i ≥ 1` and a `'.'` at
position `j` with `i + 2 ≤ j ≤ length - 2`. -/
def matchEmail (w : List Char) : Bool :=
  let n := w.length
  w.all (fun c => !isSpaceChar c)
  && (List.range n).any (fun i => (List.range n).any (fun j =>
       w.get? i == some '@' && w.get? j == some '.'
       && 1 ≤ i && i + 2 ≤ j && j + 2 ≤ n))

/-- `[a-zA-Z]:\\[\S]+` (Windows path). -/
def matchWinPath (w : List Char) : Bool :=
  match w with
  | a :: ':' :: '\\' :: rest =>
      isAsciiLetter a && !rest.isEmpty && rest.all (fun c => !isSpaceChar c)
  | _ => false

/-- `/[\w/]+` (Unix path). -/
def matchUnixPath (w : List Char) : Bool :=
  match w with
  | '/' :: rest => !rest.isEmpty && rest.all (fun c => isWordChar c || c == '/')
  | _ => false

/-- `\d+[\d.,]+\d*` (number with separators): a digit-initial word of length
at least two over digits, `'.'` and `','`. -/
def matchNumber (w : List Char) : Bool :=
  match w with
  | c :: rest =>
      pyIsDigit c && !rest.isEmpty
      && rest.all (fun d => pyIsDigit d || d == '.' || d == ',')
  | _ => false

/-- `LayoutDetector._should_skip`: too short, mixed script, contains a digit,
or matches one of the `_SKIP_PATTERNS`. -/
def should_skip (cfg : Config) (word : List Char) : Bool :=
  word.length < cfg.minWordLength
  || detect_script word == "mixed"
  || word.any pyIsDigit
  || matchUrl word || matchEmail word || matchWinPath word
  || matchUnixPath word || matchNumber word

/-- `_WORD_BOUNDARIES` from `detector.py`. -/
def WORD_BOUNDARIES : List Char :=
  [' ', '\t', '\n', '\r', '.', ',', ';', ':', '!', '?', '(', ')', '[', ']',
   '\x7b', '\x7d', '/', '<', '>', '@', '#', '$', '%', '^', '&', '*', '+',
   '=', '|', '\\', '~', '\x60', '\x22']

/-- The `CorrectionResult` dataclass of `detector.py`: exactly the three
fields `original`, `corrected`, `direction`. -/
structure CorrectionResult where
  original : List Char
  corrected : List Char
  direction : String
deriving Repr, DecidableEq

/-- `LayoutDetector` state: the keystroke buffer plus the dictionary it
mutates through `record_word`. -/
structure DetState where
  buffer : List Char
  dict : DictState
deriving Repr, DecidableEq

/-- `LayoutDetector._analyze_buffer`: decide whether the buffered word needs a
layout correction; returns the optional correction and the (possibly updated
by `record_word`) dictionary state. -/
def analyze_buffer (cfg : Config) (st : DetState) :
    Option CorrectionResult × DictState :=
  if st.buffer.isEmpty then (none, st.dict)
  else
    let word := st.buffer
    if should_skip cfg word then (none, st.dict)
    else
      let script := detect_script word
      if script == "latin" then
        if check word "en" st.dict then
          (none, (record_word word "en" st.dict cfg).2)
        else
          let remapped := remap_word word "en_to_ru"
          if check remapped "ru" st.dict then
            (some ⟨word, remapped, "en_to_ru"⟩,
             (record_word remapped "ru" st.dict cfg).2)
          else (none, st.dict)
      else if script == "cyrillic" then
        if check word "ru" st.dict then
          (none, (record_word word "ru" st.dict cfg).2)
        else
          let remapped := remap_word word "ru_to_en"
          if check remapped "en" st.dict then
            (some ⟨word, remapped, "ru_to_en"⟩,
             (record_word remapped "en" st.dict cfg).2)
          else (none, st.dict)
      else (none, st.dict)

/-- `LayoutDetector.feed_char`: a boundary character flushes the buffer
through `_analyze_buffer` and clears it; any other character is appended. -/
def feed_char (cfg : Config) (ch : Char) (st : DetState) :
    Option CorrectionResult × DetState :=
  if ch ∈ WORD_BOUNDARIES then
    let r := analyze_buffer cfg st
    (r.1, { buffer := [], dict := r.2 })
  else
    (none, { st with buffer := st.buffer ++ [ch] })

/-- `LayoutDetector.force_check`: manual remap of the buffer, no dictionary
check. Note the source clears the buffer only on the `latin` and `cyrillic`
branches; on `mixed`/`other` it returns `None` with the buffer intact. -/
def force_check (st : DetState) : Option CorrectionResult × DetState :=
  if st.buffer.isEmpty then (none, st)
  else
    let word := st.buffer
    let script := detect_script word
    if script == "latin" then
      (some ⟨word, remap_word word "en_to_ru", "en_to_ru"⟩,
       { st with buffer := [] })
    else if script == "cyrillic" then
      (some ⟨word, remap_word word "ru_to_en", "ru_to_en"⟩,
       { st with buffer := [] })
    else (none, st)

/-- `LayoutDetector.clear_buffer`. -/
def clear_buffer (st : DetState) : DetState :=
  { st with buffer := [] }

/-- The operations a client can perform on a `LayoutDetector`. -/
inductive DetOp where
  | feed (ch : Char)
  | force
  | clear
deriving Repr, DecidableEq

/-- One detector operation (outputs discarded). -/
def detStep (cfg : Config) (st : DetState) : DetOp → DetState
  | .feed ch => (feed_char cfg ch st).2
  | .force => (force_check st).2
  | .clear => clear_buffer st

/-- Run a sequence of detector operations. -/
def detRun (cfg : Config) (ops : List DetOp) (st : DetState) : DetState :=
  ops.foldl (detStep cfg) st

/-! ## `replacer.py`

The keystroke side effects are modelled as an action trace: the backspace loop
(`keyboard.send('backspace')` × n) becomes `delete n`, the clipboard paste of a
text becomes `insert text`. Timestamps (`time.time()`) are an explicit `now`
parameter; the `sys.platform == 'win32'` guard is an explicit flag. -/

/-- The `UndoEntry` dataclass of `replacer.py`: exactly the three fields
`original`, `corrected`, `timestamp`. -/
structure UndoEntry where
  original : List Char
  corrected : List Char
  timestamp : Int
deriving Repr, DecidableEq

/-- An output action of the replacer. -/
inductive OutAction where
  | delete (n : Nat)
  | insert (text : List Char)
deriving Repr, DecidableEq

/-- `Replacer` state: the undo ring (`deque(maxlen=20)`, newest last). -/
structure ReplacerState where
  undoStack : List UndoEntry
deriving Repr, DecidableEq

/-- `deque(maxlen=20).append`: drop the oldest entry when full. -/
def dequeAppend (stack : List UndoEntry) (e : UndoEntry) : List UndoEntry :=
  if stack.length < 20 then stack ++ [e] else stack.tail ++ [e]

/-- `Replacer.replace_word`: on win32, backspace over the original word plus
the boundary character (when one was typed), paste the corrected word plus the
boundary character, and push an `UndoEntry`; on other platforms do nothing and
return `False`. Clipboard save/restore has no effect on the typed text and is
not modelled. -/
def replace_word (win32 : Bool) (now : Int) (original corrected : List Char)
    (boundary_char : List Char) (st : ReplacerState) :
    Bool × ReplacerState × List OutAction :=
  if !win32 then (false, st, [])
  else
    let totalBs := original.length + (if boundary_char.isEmpty then 0 else 1)
    let actions := [OutAction.delete totalBs,
                    OutAction.insert (corrected ++ boundary_char)]
    (true,
     ⟨dequeAppend st.undoStack ⟨original, corrected, now⟩⟩,
     actions)

/-- `Replacer.undo_last`: on win32 with a most-recent entry younger than 30
seconds, pop it, backspace over `len(corrected)` characters and paste
`original`; otherwise return `False` without touching the ring. -/
def undo_last (win32 : Bool) (now : Int) (st : ReplacerState) :
    Bool × ReplacerState × List OutAction :=
  if !win32 then (false, st, [])
  else
    match st.undoStack.getLast? with
    | none => (false, st, [])
    | some entry =>
        if 30 < now - entry.timestamp then (false, st, [])
        else
          (true,
           ⟨st.undoStack.dropLast⟩,
           [OutAction.delete entry.corrected.length,
            OutAction.insert entry.original])

/-! ## `dictionary.py` — `_load_user_data`

The persisted document is modelled as a Python-side JSON value; the file state
is `none` (missing), `some none` (present but `json.load` raises
`JSONDecodeError`), or `some (some v)` (parses to `v`). The method body runs
under `try ... except (json.JSONDecodeError, TypeError): pass`, so a
`TypeError` keeps whatever fields were already assigned, while any other
exception (notably `AttributeError` from calling `.get` on a non-dict)
propagates. -/

/-- A parsed JSON value as Python sees it. -/
inductive PyJson where
  | null
  | bool (b : Bool)
  | num (n : Int)
  | str (s : List Char)
  | arr (xs : List PyJson)
  | obj (fields : List (List Char × PyJson))

/-- The Python exceptions the loader can raise. -/
inductive PyExc where
  | attributeError
  | typeError
deriving Repr, DecidableEq

/-- `data.get(k, default)`: raises `AttributeError` unless `data` is a dict.
JSON objects with a duplicate key keep the last binding. -/
def jsonGet (data : PyJson) (k : List Char) (default : PyJson) :
    Except PyExc PyJson :=
  match data with
  | .obj fields =>
      .ok ((fields.reverse.find? (fun p => p.1 == k)).map (fun p => p.2)
             |>.getD default)
  | _ => .error .attributeError

/-- A JSON value whose Python counterpart is unhashable (`list` / `dict`). -/
def jsonUnhashable : PyJson → Bool
  | .arr _ => true
  | .obj _ => true
  | _ => false

/-- `set(v)` as the loader builds it: a list of hashable elements, a dict (its
keys) or a string (its characters) succeeds; `set()` of a non-iterable value
or of a list with unhashable elements raises `TypeError`. Set deduplication
and ordering are immaterial to the claims, so elements are kept in sequence
order. -/
def toStrSet (v : PyJson) : Except PyExc (List PyJson) :=
  match v with
  | .arr xs =>
      if xs.any jsonUnhashable then .error .typeError
      else .ok xs
  | .str s => .ok (s.map (fun c => PyJson.str [c]))
  | .obj fields => .ok (fields.map (fun p => PyJson.str p.1))
  | _ => .error .typeError

/-- The user-data fields `_load_user_data` assigns. -/
structure UserData where
  userRu : List PyJson
  userEn : List PyJson
  counts : PyJson

/-- The empty user data set up by `__init__`. -/
def emptyUserData : UserData :=
  { userRu := [], userEn := [], counts := .obj [] }

/-- `DictionaryManager._load_user_data`: the three assignments run in order
inside `try ... except (json.JSONDecodeError, TypeError): pass`, so a
`TypeError` mid-way keeps the partial state, while an `AttributeError`
escapes. -/
def load_user_data (file : Option (Option PyJson)) (init : UserData) :
    Except PyExc UserData :=
  match file with
  | none => .ok init
  | some none => .ok init
  | some (some data) =>
      match jsonGet data ("ru".toList) (.arr []) with
      | .error .typeError => .ok init
      | .error e => .error e
      | .ok vru =>
          match toStrSet vru with
          | .error .typeError => .ok init
          | .error e => .error e
          | .ok ru =>
              let st1 := { init with userRu := ru }
              match jsonGet data ("en".toList) (.arr []) with
              | .error .typeError => .ok st1
              | .error e => .error e
              | .ok ven =>
                  match toStrSet ven with
                  | .error .typeError => .ok st1
                  | .error e => .error e
                  | .ok en =>
                      let st2 := { st1 with userEn := en }
                      match jsonGet data ("counts".toList) (.obj []) with
                      | .error .typeError => .ok st2
                      | .error e => .error e
                      | .ok c => .ok { st2 with counts := c }

/-! ## Iterated operations and invariants used by the claims -/

/-- A character the layout table maps (`ch in table`). -/
def mappedIn (table : List (Char × Char)) (c : Char) : Bool :=
  (table.find? (fun p => p.1 == c)).isSome

/-- The state of the dictionary after `n` calls of
`record_word(word, language)`. -/
def recordIter (word : List Char) (language : String) (cfg : Config) :
    Nat → DictState → DictState
  | 0, st => st
  | n + 1, st =>
      (record_word word language (recordIter word language cfg n st) cfg).2

/-- The operations a client can perform on a `DictionaryManager`. -/
inductive DictOp where
  | checkOp (w : List Char) (lang : String)
  | record (w : List Char) (lang : String)
  | add (w : List Char) (lang : String)
  | remove (w : List Char) (lang : String)

/-- One dictionary operation (`check` reads only). -/
def dictStep (cfg : Config) (st : DictState) : DictOp → DictState
  | .checkOp _ _ => st
  | .record w lang => (record_word w lang st cfg).2
  | .add w lang => add_word w lang st
  | .remove w lang => remove_word w lang st

/-- Run a sequence of dictionary operations. -/
def dictRun (cfg : Config) (ops : List DictOp) (st : DictState) : DictState :=
  ops.foldl (dictStep cfg) st

/-- The initial dictionary state: loaded base vocabularies, empty user state. -/
def initDict (ru en : List (List Char)) : DictState :=
  { ruWords := ru, enWords := en, userRu := [], userEn := [], wordCounts := [] }

/-- Every word stored in a user vocabulary is lowercase, and every learning
counter key was built as `language ++ ":" ++ word` from a lowercase word. -/
def lowerInv (st : DictState) : Prop :=
  (∀ w ∈ st.userRu, pyLower w = w) ∧ (∀ w ∈ st.userEn, pyLower w = w)
  ∧ ∀ p ∈ st.wordCounts,
      ∃ lang w, p.1 = countKey lang w ∧ pyLower w = w

/-- The detector's buffer holds no word-boundary character. -/
def bufferInv (st : DetState) : Prop :=
  ∀ c ∈ st.buffer, c ∉ WORD_BOUNDARIES

/-- Modelled from the spec's words ("classify each alphabetic character by
Unicode block"): a Latin alphabetic character proper — ASCII, Latin-1 and
Latin Extended-A/B letters — for comparison with the code's classification,
which lumps every non-Cyrillic alphabetic character into `latin`. -/
def isLatinLetter (c : Char) : Bool :=
  let n := c.toNat
  isAsciiLetter c
  || ((192 ≤ n) && (n ≤ 214)) || ((216 ≤ n) && (n ≤ 246)) || ((248 ≤ n) && (n ≤ 255))
  || ((0x100 ≤ n) && (n ≤ 0x24f))

/-- A small concrete dictionary (the shape the repository's tests use). -/
def testDict : DictState :=
  { ruWords := ["привет".toList, "мир".toList],
    enWords := ["hello".toList, "world".toList],
    userRu := [], userEn := [], wordCounts := [] }

/-- Feed a whole string into the detector, keeping the last flush result. -/
def feedString (cfg : Config) (s : List Char) (st : DetState) :
    Option CorrectionResult × DetState :=
  s.foldl (fun acc c => feed_char cfg c acc.2) (none, st)

/-! ## Helper lemmas -/

theorem lowerChar_idem (c : Char) : lowerChar (lowerChar c) = lowerChar c := by
  unfold lowerChar
  cases hf : lowerPairs.find? (fun p => p.1 == c) with
  | none => simp [hf]
  | some p =>
      have hmem := List.mem_of_find?_eq_some hf
      have hnone : lowerPairs.find? (fun q => q.1 == p.2) = none := by
        rw [List.find?_eq_none]
        intro q hq
        have hall : lowerPairs.all
            (fun r => lowerPairs.all (fun q => !(q.1 == r.2))) = true := by
          decide
        rw [List.all_eq_true] at hall
        have hq2 := (List.all_eq_true.mp (hall p hmem)) q hq
        simpa using hq2
      simp [hf, hnone]

theorem pyLower_idem (w : List Char) : pyLower (pyLower w) = pyLower w := by
  simp only [pyLower, List.map_map]
  exact List.map_congr_left (fun c _ => lowerChar_idem c)

theorem alGet_alSet (l : List (List Char × Nat)) (k : List Char) (v : Nat) :
    alGet (alSet l k v) k = some v := by
  unfold alGet alSet
  by_cases hany : l.any (fun p => p.1 == k) = true
  · rw [if_pos hany]
    induction l with
    | nil => simp at hany
    | cons q t ih =>
        rw [List.any_cons] at hany
        by_cases hq : (q.1 == k) = true
        · simp [List.find?, hq]
        · have hany' : t.any (fun p => p.1 == k) = true := by
            simpa [hq] using hany
          simpa [List.find?, hq] using ih hany'
  · rw [if_neg hany]
    induction l with
    | nil => simp [List.find?]
    | cons q t ih =>
        rw [List.any_cons] at hany
        have hq : (q.1 == k) = false := by
          cases h : q.1 == k
          · rfl
          · exact absurd (by simp [h]) hany
        have ht : ¬ t.any (fun p => p.1 == k) = true := by
          intro hc
          exact hany (by simp [hq, hc])
        simpa [List.find?, hq] using ih ht

theorem alGet_alErase (l : List (List Char × Nat)) (k : List Char) :
    alGet (alErase l k) k = none := by
  unfold alGet alErase
  have hf : List.find? (fun p => p.1 == k)
      (List.filter (fun p => !(p.1 == k)) l) = none := by
    rw [List.find?_eq_none]
    intro p hp
    have := List.of_mem_filter hp
    simpa using this
  rw [hf]
  rfl

theorem mem_alSet (l : List (List Char × Nat)) (k : List Char) (v : Nat)
    (p : List Char × Nat) (hp : p ∈ alSet l k v) : p ∈ l ∨ p = (k, v) := by
  unfold alSet at hp
  by_cases hany : l.any (fun q => q.1 == k) = true
  · rw [if_pos hany] at hp
    obtain ⟨q, hq, hfq⟩ := List.mem_map.mp hp
    by_cases hqk : (q.1 == k) = true
    · right
      rw [if_pos hqk] at hfq
      exact hfq.symm
    · left
      rw [if_neg hqk] at hfq
      exact hfq ▸ hq
  · rw [if_neg hany] at hp
    rcases List.mem_append.mp hp with h | h
    · exact Or.inl h
    · exact Or.inr (by simpa using h)

theorem mem_alErase (l : List (List Char × Nat)) (k : List Char)
    (p : List Char × Nat) (hp : p ∈ alErase l k) : p ∈ l :=
  List.mem_of_mem_filter hp

theorem mem_setAdd (s : List (List Char)) (w : List Char) :
    w ∈ setAdd s w := by
  unfold setAdd
  by_cases h : w ∈ s
  · simp [h]
  · simp [h]

theorem mem_of_mem_setAdd (s : List (List Char)) (w v : List Char)
    (h : v ∈ setAdd s w) : v ∈ s ∨ v = w := by
  unfold setAdd at h
  by_cases hm : w ∈ s
  · rw [if_pos hm] at h; exact Or.inl h
  · rw [if_neg hm] at h
    rcases List.mem_append.mp h with h1 | h1
    · exact Or.inl h1
    · right; simpa using h1

theorem enRoundtripAll :
    EN_TO_RU.all
      (fun p => remapChar RU_TO_EN (remapChar EN_TO_RU p.1) == p.1) = true := by
  decide

theorem ruRoundtripAll :
    RU_TO_EN.all
      (fun p => remapChar EN_TO_RU (remapChar RU_TO_EN p.1) == p.1) = true := by
  decide

theorem remapChar_left_inv {c : Char} (h : mappedIn EN_TO_RU c = true) :
    remapChar RU_TO_EN (remapChar EN_TO_RU c) = c := by
  unfold mappedIn at h
  cases hf : EN_TO_RU.find? (fun p => p.1 == c) with
  | none => rw [hf] at h; simp at h
  | some p =>
      have hmem := List.mem_of_find?_eq_some hf
      have hpc : p.1 = c := by
        have := List.find?_some hf
        simpa using this
      have hall := List.all_eq_true.mp enRoundtripAll p hmem
      rw [← hpc]
      exact eq_of_beq (by simpa using hall)

theorem remapChar_right_inv {c : Char} (h : mappedIn RU_TO_EN c = true) :
    remapChar EN_TO_RU (remapChar RU_TO_EN c) = c := by
  unfold mappedIn at h
  cases hf : RU_TO_EN.find? (fun p => p.1 == c) with
  | none => rw [hf] at h; simp at h
  | some p =>
      have hmem := List.mem_of_find?_eq_some hf
      have hpc : p.1 = c := by
        have := List.find?_some hf
        simpa using this
      have hall := List.all_eq_true.mp ruRoundtripAll p hmem
      rw [← hpc]
      exact eq_of_beq (by simpa using hall)

/-- **C5**: for every word composed only of characters mapped in the
transliteration table of the direction applied first,
`remap(remap(w, En→Ru), Ru→En) = w`, and symmetrically
`remap(remap(w, Ru→En), En→Ru) = w`. -/
theorem C5_remap_roundtrip (w : List Char) :
    ((∀ c ∈ w, mappedIn EN_TO_RU c = true) →
       remap_word (remap_word w "en_to_ru") "ru_to_en" = w)
  ∧ ((∀ c ∈ w, mappedIn RU_TO_EN c = true) →
       remap_word (remap_word w "ru_to_en") "en_to_ru" = w) := by
  constructor
  · intro h
    simp only [remap_word, List.map_map]
    have : ("ru_to_en" == "en_to_ru") = false := by decide
    rw [this]
    simp only [Bool.false_eq_true, if_false, if_pos rfl]
    calc List.map (remapChar RU_TO_EN ∘ remapChar EN_TO_RU) w
        = List.map id w :=
          List.map_congr_left (fun c hc => remapChar_left_inv (h c hc))
      _ = w := List.map_id w
  · intro h
    simp only [remap_word, List.map_map]
    have : ("ru_to_en" == "en_to_ru") = false := by decide
    rw [this]
    simp only [Bool.false_eq_true, if_false, if_pos rfl]
    calc List.map (remapChar EN_TO_RU ∘ remapChar RU_TO_EN) w
        = List.map id w :=
          List.map_congr_left (fun c hc => remapChar_right_inv (h c hc))
      _ = w := List.map_id w

/-- Witness for C5 at the concrete words `"q,/"` (all mapped En→Ru, including
the punctuation keys) and `"ёж."` (all mapped Ru→En). -/
theorem C5_remap_roundtrip_witness :
    ((∀ c ∈ ("q,/".toList), mappedIn EN_TO_RU c = true)
      ∧ remap_word (remap_word "q,/".toList "en_to_ru") "ru_to_en"
          = "q,/".toList)
  ∧ ((∀ c ∈ ("ёж.".toList), mappedIn RU_TO_EN c = true)
      ∧ remap_word (remap_word "ёж.".toList "ru_to_en") "en_to_ru"
          = "ёж.".toList) :=
  ⟨⟨by decide, (C5_remap_roundtrip "q,/".toList).1 (by decide)⟩,
   ⟨by decide, (C5_remap_roundtrip "ёж.".toList).2 (by decide)⟩⟩

theorem scanFlags_fst (w : List Char) :
    (scanFlags w).1 = w.any (fun c => pyIsAlpha c && !isCyrRange c) := by
  induction w with
  | nil => rfl
  | cons c t ih =>
      simp only [scanFlags, List.any_cons]
      by_cases ha : pyIsAlpha c = true
      · by_cases hc : isCyrRange c = true
        · simp [ha, hc, ih]
        · simp only [Bool.not_eq_true] at hc
          simp [ha, hc]
      · simp only [Bool.not_eq_true] at ha
        simp [ha, ih]

theorem scanFlags_snd (w : List Char) :
    (scanFlags w).2 = w.any (fun c => pyIsAlpha c && isCyrRange c) := by
  induction w with
  | nil => rfl
  | cons c t ih =>
      simp only [scanFlags, List.any_cons]
      by_cases ha : pyIsAlpha c = true
      · by_cases hc : isCyrRange c = true
        · simp [ha, hc]
        · simp only [Bool.not_eq_true] at hc
          simp [ha, hc, ih]
      · simp only [Bool.not_eq_true] at ha
        simp [ha, ih]

theorem detect_script_eq_mixed (w : List Char) :
    detect_script w = "mixed" ↔
      (scanFlags w).1 = true ∧ (scanFlags w).2 = true := by
  unfold detect_script
  rcases h1 : (scanFlags w).1 <;> rcases h2 : (scanFlags w).2 <;>
    simp [h1, h2]

theorem detect_script_eq_other (w : List Char) :
    detect_script w = "other" ↔
      (scanFlags w).1 = false ∧ (scanFlags w).2 = false := by
  unfold detect_script
  rcases h1 : (scanFlags w).1 <;> rcases h2 : (scanFlags w).2 <;>
    simp [h1, h2]

/-- **C3 counterexample**: `detect_script "αб"` returns `mixed` although the
word contains no Latin alphabetic character (`'α'` is a Greek letter —
alphabetic, yet classified by the code as Latin because it merely falls
outside the Cyrillic block). -/
theorem C3_counterexample :
    detect_script "αб".toList = "mixed"
    ∧ (∀ c ∈ "αб".toList, isLatinLetter c = false)
    ∧ (∀ c ∈ "αб".toList, pyIsAlpha c = true) := by
  decide

/-- **C3 (amended)**: `detect_script` is total over all input text; it
returns `mixed` iff the word contains at least one Cyrillic alphabetic
character (block U+0400–U+04FF) and at least one alphabetic character outside
that block; it returns `other` iff the word contains no alphabetic character
at all (including the empty string). -/
theorem C3_detect_script_amended (w : List Char) :
    (detect_script w = "latin" ∨ detect_script w = "cyrillic"
      ∨ detect_script w = "mixed" ∨ detect_script w = "other")
  ∧ (detect_script w = "mixed" ↔
      ((∃ c ∈ w, pyIsAlpha c = true ∧ isCyrRange c = true)
        ∧ (∃ c ∈ w, pyIsAlpha c = true ∧ isCyrRange c = false)))
  ∧ (detect_script w = "other" ↔ ∀ c ∈ w, pyIsAlpha c = false) := by
  refine ⟨?_, ?_, ?_⟩
  · unfold detect_script
    rcases h1 : (scanFlags w).1 <;> rcases h2 : (scanFlags w).2 <;> simp [h1, h2]
  · rw [detect_script_eq_mixed, scanFlags_fst, scanFlags_snd,
        List.any_eq_true, List.any_eq_true]
    constructor
    · rintro ⟨h1, h2⟩
      obtain ⟨c1, hc1, hp1⟩ := h1
      obtain ⟨c2, hc2, hp2⟩ := h2
      simp only [Bool.and_eq_true, Bool.not_eq_true'] at hp1 hp2
      exact ⟨⟨c2, hc2, hp2⟩, ⟨c1, hc1, hp1⟩⟩
    · rintro ⟨⟨c2, hc2, hp2⟩, ⟨c1, hc1, hp1⟩⟩
      constructor
      · exact ⟨c1, hc1, by simp [hp1.1, hp1.2]⟩
      · exact ⟨c2, hc2, by simp [hp2.1, hp2.2]⟩
  · rw [detect_script_eq_other, scanFlags_fst, scanFlags_snd]
    constructor
    · rintro ⟨h1, h2⟩ c hc
      have a1 : w.any (fun c => pyIsAlpha c && !isCyrRange c) = false := h1
      have a2 : w.any (fun c => pyIsAlpha c && isCyrRange c) = false := h2
      rw [List.any_eq_false] at a1 a2
      have b1 := a1 c hc
      have b2 := a2 c hc
      cases ha : pyIsAlpha c
      · rfl
      · cases hcy : isCyrRange c
        · rw [ha, hcy] at b1
          simp at b1
        · rw [ha, hcy] at b2
          simp at b2
    · intro h
      constructor <;>
        · rw [List.any_eq_false]
          intro c hc
          simp [h c hc]

/-- **C4 counterexample**: after feeding the mixed-script word `"aб"`, the
buffer is non-empty, yet `force_check` returns none and leaves the buffer
as it was — the source clears the buffer only on the `latin`/`cyrillic`
branches. -/
theorem C4_counterexample :
    ({ buffer := "aб".toList, dict := testDict } : DetState).buffer ≠ []
    ∧ force_check { buffer := "aб".toList, dict := testDict }
        = (none, { buffer := "aб".toList, dict := testDict })
    ∧ (force_check { buffer := "aб".toList, dict := testDict }).2.buffer
        ≠ [] := by
  decide

/-- **C4 (amended)**: on an empty buffer `force_check` returns none and
changes nothing; it returns a correction iff the buffer is non-empty and the
buffered word's script is `latin` or `cyrillic`; it clears the buffer exactly
when it returns a correction, and when it returns none (buffer empty, or
script `mixed`/`other`) the whole state — buffer included — is left
unchanged. -/
theorem C4_force_check_amended (st : DetState) :
    (st.buffer = [] → force_check st = (none, st))
  ∧ ((force_check st).1.isSome = true ↔
       st.buffer ≠ []
       ∧ (detect_script st.buffer = "latin"
           ∨ detect_script st.buffer = "cyrillic"))
  ∧ ((force_check st).1.isSome = true → (force_check st).2.buffer = [])
  ∧ ((force_check st).1 = none → (force_check st).2 = st) := by
  unfold force_check
  by_cases hb : st.buffer.isEmpty = true
  · have hnil : st.buffer = [] := List.isEmpty_iff.mp hb
    simp [hb, hnil]
  · have hne : st.buffer ≠ [] := by
      intro hcon
      exact hb (by simp [hcon])
    by_cases hl : detect_script st.buffer = "latin"
    · simp [hb, hl, hne]
    · by_cases hc : detect_script st.buffer = "cyrillic"
      · simp [hb, hl, hc, hne]
      · simp [hb, hl, hc, hne]

/-- Witness for C4 (amended) at the empty buffer and at the Latin word
`"ghbdtn"`. -/
theorem C4_force_check_amended_witness :
    force_check { buffer := [], dict := testDict }
      = (none, { buffer := [], dict := testDict })
    ∧ (force_check { buffer := "ghbdtn".toList, dict := testDict }).2.buffer
        = [] :=
  ⟨(C4_force_check_amended _).1 rfl,
   (C4_force_check_amended _).2.2.1 (by decide)⟩

/-- **C1**: typing `"ghbdtn"` and then the boundary `' '` flushes the buffer
and yields a correction; the `CorrectionResult` dataclass carries exactly the
three fields `original`, `corrected`, `direction` — there is no
`boundary_char` field recording the `' '` that triggered the flush, although
`main.py` (`_handle_key`, `_do_replace`) and the repository's own test
`test_en_typed_as_ru_corrected` read `result.boundary_char`. -/
theorem C1_flush_correction :
    (feedString {} "ghbdtn ".toList ⟨[], testDict⟩).1
      = some { original := "ghbdtn".toList, corrected := "привет".toList,
               direction := "en_to_ru" } := by
  decide

/-- **C7**: after `replace_word("ghbdtn", "привет", boundary ' ')` typed
7 characters (corrected word plus boundary), an in-window `undo_last` pops
the entry and emits `delete 6` then `insert "ghbdtn"` — not
`delete (6+1)` then `insert ("ghbdtn" ++ " ")` as the claim states; the
`UndoEntry` holds only `original`, `corrected`, `timestamp`, so the boundary
character cannot be restored. -/
theorem C7_undo_drops_boundary :
    replace_word true 0 "ghbdtn".toList "привет".toList [' '] ⟨[]⟩
      = (true, ⟨[⟨"ghbdtn".toList, "привет".toList, 0⟩]⟩,
         [.delete 7, .insert ("привет".toList ++ [' '])])
    ∧ undo_last true 10 ⟨[⟨"ghbdtn".toList, "привет".toList, 0⟩]⟩
      = (true, ⟨[]⟩, [.delete 6, .insert "ghbdtn".toList])
    ∧ ([OutAction.delete 6, OutAction.insert "ghbdtn".toList]
        ≠ [OutAction.delete (6 + 1),
           OutAction.insert ("ghbdtn".toList ++ [' '])]) := by
  decide

/-- **C8**: a persisted document that parses to a JSON array (top level not an
object) makes `_load_user_data` raise `AttributeError` at `data.get`, which
the `except (json.JSONDecodeError, TypeError)` clause does not catch — the
loader does not fall back to defaults. -/
theorem C8_load_user_data_raises :
    load_user_data (some (some (.arr []))) emptyUserData
      = .error .attributeError := by
  rfl

/-- **C2**: for a non-empty buffered word passing the skip checks, with Latin
script: the analysis yields a correction iff `check(word, en)` fails and
`check(remap(word, En→Ru), ru)` succeeds, in which case the correction is
`(word, remapped, en_to_ru)` (recording the remapped word in `ru`); when
`check(word, en)` succeeds the word is recorded in `en` and none is returned;
when both checks fail none is returned and the dictionary is untouched. The
Cyrillic case is symmetric with the languages swapped. -/
theorem C2_analyze_buffer_spec (cfg : Config) (st : DetState)
    (hne : st.buffer ≠ [])
    (hskip : should_skip cfg st.buffer = false) :
    (detect_script st.buffer = "latin" →
       (((analyze_buffer cfg st).1.isSome = true ↔
           check st.buffer "en" st.dict = false
           ∧ check (remap_word st.buffer "en_to_ru") "ru" st.dict = true)
        ∧ (check st.buffer "en" st.dict = true →
             analyze_buffer cfg st
               = (none, (record_word st.buffer "en" st.dict cfg).2))
        ∧ (check st.buffer "en" st.dict = false →
           check (remap_word st.buffer "en_to_ru") "ru" st.dict = true →
             analyze_buffer cfg st
               = (some ⟨st.buffer, remap_word st.buffer "en_to_ru",
                        "en_to_ru"⟩,
                  (record_word (remap_word st.buffer "en_to_ru") "ru"
                     st.dict cfg).2))
        ∧ (check st.buffer "en" st.dict = false →
           check (remap_word st.buffer "en_to_ru") "ru" st.dict = false →
             analyze_buffer cfg st = (none, st.dict))))
  ∧ (detect_script st.buffer = "cyrillic" →
       (((analyze_buffer cfg st).1.isSome = true ↔
           check st.buffer "ru" st.dict = false
           ∧ check (remap_word st.buffer "ru_to_en") "en" st.dict = true)
        ∧ (check st.buffer "ru" st.dict = true →
             analyze_buffer cfg st
               = (none, (record_word st.buffer "ru" st.dict cfg).2))
        ∧ (check st.buffer "ru" st.dict = false →
           check (remap_word st.buffer "ru_to_en") "en" st.dict = true →
             analyze_buffer cfg st
               = (some ⟨st.buffer, remap_word st.buffer "ru_to_en",
                        "ru_to_en"⟩,
                  (record_word (remap_word st.buffer "ru_to_en") "en"
                     st.dict cfg).2))
        ∧ (check st.buffer "ru" st.dict = false →
           check (remap_word st.buffer "ru_to_en") "en" st.dict = false →
             analyze_buffer cfg st = (none, st.dict)))) := by
  have hb : st.buffer.isEmpty = false := by
    cases h : st.buffer.isEmpty
    · rfl
    · exact absurd (List.isEmpty_iff.mp h) hne
  constructor
  · intro hscript
    unfold analyze_buffer
    by_cases h1 : check st.buffer "en" st.dict = true
    · simp [hb, hskip, hscript, h1]
    · have h1' : check st.buffer "en" st.dict = false :=
        Bool.not_eq_true _ ▸ h1
      by_cases h2 : check (remap_word st.buffer "en_to_ru") "ru" st.dict
          = true
      · simp [hb, hskip, hscript, h1', h2]
      · have h2' : check (remap_word st.buffer "en_to_ru") "ru" st.dict
            = false := Bool.not_eq_true _ ▸ h2
        simp [hb, hskip, hscript, h1', h2']
  · intro hscript
    have hnl : detect_script st.buffer ≠ "latin" := by
      rw [hscript]
      decide
    unfold analyze_buffer
    by_cases h1 : check st.buffer "ru" st.dict = true
    · simp [hb, hskip, hscript, hnl, h1]
    · have h1' : check st.buffer "ru" st.dict = false :=
        Bool.not_eq_true _ ▸ h1
      by_cases h2 : check (remap_word st.buffer "ru_to_en") "en" st.dict
          = true
      · simp [hb, hskip, hscript, hnl, h1', h2]
      · have h2' : check (remap_word st.buffer "ru_to_en") "en" st.dict
            = false := Bool.not_eq_true _ ▸ h2
        simp [hb, hskip, hscript, hnl, h1', h2']

/-- Witness for C2: the wrong-layout word `"ghbdtn"` (Latin script, unknown
in English, remapping to the known Russian `"привет"`) is corrected. -/
theorem C2_analyze_buffer_spec_witness :
    analyze_buffer {} ⟨"ghbdtn".toList, testDict⟩
      = (some ⟨"ghbdtn".toList, "привет".toList, "en_to_ru"⟩,
         (record_word "привет".toList "ru" testDict {}).2) :=
  have h := (C2_analyze_buffer_spec {} ⟨"ghbdtn".toList, testDict⟩
    (by decide) (by decide)).1 (by decide)
  h.2.2.1 (by decide) (by decide)

theorem detStep_bufferInv (cfg : Config) (st : DetState) (op : DetOp)
    (h : bufferInv st) : bufferInv (detStep cfg st op) := by
  cases op with
  | feed ch =>
      simp only [detStep, feed_char]
      by_cases hc : ch ∈ WORD_BOUNDARIES
      · rw [if_pos hc]
        intro c hmem
        simp at hmem
      · rw [if_neg hc]
        intro c hmem
        rcases List.mem_append.mp hmem with hm | hm
        · exact h c hm
        · have : c = ch := by simpa using hm
          exact this ▸ hc
  | force =>
      simp only [detStep, force_check]
      by_cases hb : st.buffer.isEmpty = true
      · rw [if_pos hb]
        exact h
      · rw [if_neg hb]
        by_cases hl : (detect_script st.buffer == "latin") = true
        · rw [if_pos hl]
          intro c hmem
          simp at hmem
        · rw [if_neg hl]
          by_cases hcy : (detect_script st.buffer == "cyrillic") = true
          · rw [if_pos hcy]
            intro c hmem
            simp at hmem
          · rw [if_neg hcy]
            exact h
  | clear =>
      simp only [detStep, clear_buffer]
      intro c hmem
      simp at hmem

theorem detRun_bufferInv (cfg : Config) (ops : List DetOp) :
    ∀ st : DetState, bufferInv st → bufferInv (detRun cfg ops st) := by
  induction ops with
  | nil => exact fun st h => h
  | cons op rest ih =>
      intro st h
      exact ih _ (detStep_bufferInv cfg st op h)

/-- **C9**: from the initial empty state, every sequence of detector
operations leaves the buffer free of word-boundary characters; feeding a
boundary character flushes the buffer through the analysis and clears it
rather than appending it. -/
theorem C9_buffer_no_boundary (cfg : Config) (d0 : DictState)
    (ops : List DetOp) :
    bufferInv (detRun cfg ops ⟨[], d0⟩)
  ∧ ∀ ch ∈ WORD_BOUNDARIES, ∀ st : DetState,
      (feed_char cfg ch st).2.buffer = []
      ∧ (feed_char cfg ch st).1 = (analyze_buffer cfg st).1 := by
  constructor
  · exact detRun_bufferInv cfg ops ⟨[], d0⟩ (fun c hc => by simp at hc)
  · intro ch hch st
    unfold feed_char
    rw [if_pos hch]
    exact ⟨rfl, rfl⟩

/-- Witness for C9: after feeding `'a'`, the buffered `'a'` is not a
boundary character; feeding the boundary `' '` onto the buffer `"ghb"`
clears it. -/
theorem C9_buffer_no_boundary_witness :
    'a' ∉ WORD_BOUNDARIES
    ∧ (feed_char {} ' ' ⟨"ghb".toList, testDict⟩).2.buffer = [] :=
  ⟨(C9_buffer_no_boundary {} testDict [.feed 'a']).1 'a' (by decide),
   ((C9_buffer_no_boundary {} testDict []).2 ' ' (by decide)
      ⟨"ghb".toList, testDict⟩).1⟩

theorem check_wordCounts_irrel (w : List Char) (lang : String)
    (st : DictState) (C : List (List Char × Nat)) :
    check w lang { st with wordCounts := C } = check w lang st := rfl

theorem check_pyLower (w : List Char) (lang : String) (st : DictState) :
    check (pyLower w) lang st = check w lang st := by
  unfold check
  rw [pyLower_idem]

theorem check_mem_user (w : List Char) (st : DictState) :
    (pyLower w ∈ st.userRu → check w "ru" st = true)
    ∧ (pyLower w ∈ st.userEn → check w "en" st = true) := by
  constructor <;> intro h <;> unfold check <;> simp [h]

theorem record_word_eq (w : List Char) (lang : String) (st : DictState)
    (cfg : Config) (hchk : check w lang st = false) :
    record_word w lang st cfg =
      (if cfg.autoLearnThreshold
            ≤ (alGet st.wordCounts (countKey lang (pyLower w))).getD 0 + 1
       then
         (true,
          { userAdd st lang (pyLower w) with
            wordCounts :=
              alErase
                (alSet st.wordCounts (countKey lang (pyLower w))
                  ((alGet st.wordCounts
                      (countKey lang (pyLower w))).getD 0 + 1))
                (countKey lang (pyLower w)) })
       else
         (false,
          { st with
            wordCounts :=
              alSet st.wordCounts (countKey lang (pyLower w))
                ((alGet st.wordCounts
                    (countKey lang (pyLower w))).getD 0 + 1) })) := by
  simp only [record_word]
  rw [check_pyLower, hchk]
  rfl

theorem recordIter_closed (w : List Char) (lang : String) (cfg : Config)
    (st : DictState)
    (hchk : check w lang st = false)
    (hcnt : alGet st.wordCounts (countKey lang (pyLower w)) = none) :
    ∀ i, i < cfg.autoLearnThreshold →
      ∃ C, recordIter w lang cfg i st = { st with wordCounts := C }
        ∧ alGet C (countKey lang (pyLower w))
            = (if i = 0 then none else some i) := by
  intro i
  induction i with
  | zero =>
      intro _
      exact ⟨st.wordCounts, rfl, by simpa using hcnt⟩
  | succ n ih =>
      intro hlt
      obtain ⟨C, hS, hC⟩ := ih (Nat.lt_of_succ_lt hlt)
      have hchk' : check w lang { st with wordCounts := C } = false := by
        rw [check_wordCounts_irrel]
        exact hchk
      have hget : (alGet C (countKey lang (pyLower w))).getD 0 + 1 = n + 1 := by
        rw [hC]
        cases n with
        | zero => rfl
        | succ m => rfl
      refine ⟨alSet C (countKey lang (pyLower w)) (n + 1), ?_, ?_⟩
      · show (record_word w lang (recordIter w lang cfg n st) cfg).2 = _
        rw [hS, record_word_eq w lang _ cfg hchk']
        have hnle : ¬ cfg.autoLearnThreshold
            ≤ (alGet ({ st with wordCounts := C } : DictState).wordCounts
                 (countKey lang (pyLower w))).getD 0 + 1 := by
          show ¬ cfg.autoLearnThreshold ≤ (alGet C _).getD 0 + 1
          rw [hget]
          omega
        rw [if_neg hnle]
        show ({ st with
            wordCounts := alSet C (countKey lang (pyLower w))
              ((alGet C (countKey lang (pyLower w))).getD 0 + 1) } : DictState)
          = _
        rw [hget]
      · rw [alGet_alSet]
        simp

/-- **C6**: for a word unknown to base and user vocabulary of language `L`
(i.e. `check` fails) with no pending learning counter, and threshold `t ≥ 1`:
each of the first `t-1` calls of `record_word` returns false, the `t`-th call
returns true, and afterwards `check` succeeds and the counter entry is gone. -/
theorem C6_record_word_threshold (w : List Char) (lang : String)
    (cfg : Config) (st : DictState)
    (hlang : lang = "ru" ∨ lang = "en")
    (hchk : check w lang st = false)
    (hcnt : alGet st.wordCounts (countKey lang (pyLower w)) = none)
    (ht : 1 ≤ cfg.autoLearnThreshold) :
    (∀ i, i + 1 < cfg.autoLearnThreshold →
       (record_word w lang (recordIter w lang cfg i st) cfg).1 = false)
  ∧ (record_word w lang
       (recordIter w lang cfg (cfg.autoLearnThreshold - 1) st) cfg).1 = true
  ∧ check w lang (recordIter w lang cfg cfg.autoLearnThreshold st) = true
  ∧ alGet (recordIter w lang cfg cfg.autoLearnThreshold st).wordCounts
      (countKey lang (pyLower w)) = none := by
  have closed := recordIter_closed w lang cfg st hchk hcnt
  -- the state after the t-th call, computed once
  obtain ⟨C, hS, hC⟩ := closed (cfg.autoLearnThreshold - 1) (by omega)
  have hchk' : check w lang { st with wordCounts := C } = false := by
    rw [check_wordCounts_irrel]
    exact hchk
  have hget : (alGet C (countKey lang (pyLower w))).getD 0 + 1
      = cfg.autoLearnThreshold := by
    rw [hC]
    rcases Nat.eq_or_lt_of_le ht with h1 | h1
    · have : cfg.autoLearnThreshold - 1 = 0 := by omega
      rw [this]
      simp
      omega
    · have : cfg.autoLearnThreshold - 1 ≠ 0 := by omega
      rw [if_neg this]
      simp
      omega
  have hfinal :
      recordIter w lang cfg cfg.autoLearnThreshold st
        = (record_word w lang
            (recordIter w lang cfg (cfg.autoLearnThreshold - 1) st) cfg).2 := by
    have hsucc : cfg.autoLearnThreshold = (cfg.autoLearnThreshold - 1) + 1 := by
      omega
    rw [hsucc]
    rfl
  have hlastcall :
      record_word w lang
        (recordIter w lang cfg (cfg.autoLearnThreshold - 1) st) cfg
      = (true,
         { userAdd { st with wordCounts := C } lang (pyLower w) with
           wordCounts :=
             alErase
               (alSet C (countKey lang (pyLower w)) cfg.autoLearnThreshold)
               (countKey lang (pyLower w)) }) := by
    rw [hS, record_word_eq w lang _ cfg hchk']
    have hle : cfg.autoLearnThreshold
        ≤ (alGet ({ st with wordCounts := C } : DictState).wordCounts
             (countKey lang (pyLower w))).getD 0 + 1 := by
      show cfg.autoLearnThreshold ≤ (alGet C _).getD 0 + 1
      rw [hget]
    rw [if_pos hle]
    show _ = _
    rw [show (alGet ({ st with wordCounts := C } : DictState).wordCounts
          (countKey lang (pyLower w))).getD 0 + 1 = cfg.autoLearnThreshold
        from hget]
  refine ⟨?_, ?_, ?_, ?_⟩
  · intro i hi
    obtain ⟨Ci, hSi, hCi⟩ := closed i (by omega)
    have hchki : check w lang { st with wordCounts := Ci } = false := by
      rw [check_wordCounts_irrel]
      exact hchk
    have hgeti : (alGet Ci (countKey lang (pyLower w))).getD 0 + 1 = i + 1 := by
      rw [hCi]
      cases i with
      | zero => rfl
      | succ m => rfl
    rw [hSi, record_word_eq w lang _ cfg hchki]
    have hnle : ¬ cfg.autoLearnThreshold
        ≤ (alGet ({ st with wordCounts := Ci } : DictState).wordCounts
             (countKey lang (pyLower w))).getD 0 + 1 := by
      show ¬ cfg.autoLearnThreshold ≤ (alGet Ci _).getD 0 + 1
      rw [hgeti]
      omega
    rw [if_neg hnle]
  · rw [hlastcall]
  · rw [hfinal, hlastcall]
    rcases hlang with h | h <;> subst h
    · exact (check_mem_user w _).1 (mem_setAdd _ _)
    · exact (check_mem_user w _).2 (mem_setAdd _ _)
  · rw [hfinal, hlastcall]
    exact alGet_alErase _ _

/-- Witness for C6 with the default threshold 3: recording `"новое"` three
times on the test dictionary — false, false, then learned. -/
theorem C6_record_word_threshold_witness :
    (record_word "новое".toList "ru"
       (recordIter "новое".toList "ru" {} 0 testDict) {}).1 = false
    ∧ (record_word "новое".toList "ru"
         (recordIter "новое".toList "ru" {} 2 testDict) {}).1 = true
    ∧ check "новое".toList "ru"
        (recordIter "новое".toList "ru" {} 3 testDict) = true :=
  have h := C6_record_word_threshold "новое".toList "ru" {} testDict
    (Or.inl rfl) (by decide) (by decide) (by decide)
  ⟨h.1 0 (by decide), h.2.1, h.2.2.1⟩

theorem lower_mem_setAdd {s : List (List Char)} {w v : List Char}
    (hs : ∀ u ∈ s, pyLower u = u) (hv : v ∈ setAdd s (pyLower w)) :
    pyLower v = v := by
  rcases mem_of_mem_setAdd _ _ _ hv with h | h
  · exact hs v h
  · rw [h]
    exact pyLower_idem w

theorem counts_inv_alSet {l : List (List Char × Nat)} {lang : String}
    {w : List Char}
    (hl : ∀ p ∈ l, ∃ la u, p.1 = countKey la u ∧ pyLower u = u) (cnt : Nat) :
    ∀ p ∈ alSet l (countKey lang (pyLower w)) cnt,
      ∃ la u, p.1 = countKey la u ∧ pyLower u = u := by
  intro p hp
  rcases mem_alSet _ _ _ p hp with h | h
  · exact hl p h
  · exact ⟨lang, pyLower w, by rw [h], pyLower_idem w⟩

theorem dictStep_lowerInv (cfg : Config) (st : DictState) (op : DictOp)
    (h : lowerInv st) : lowerInv (dictStep cfg st op) := by
  obtain ⟨hru, hen, hcounts⟩ := h
  cases op with
  | checkOp w lang => exact ⟨hru, hen, hcounts⟩
  | record w lang =>
      simp only [dictStep, record_word]
      split
      · exact ⟨hru, hen, hcounts⟩
      · split
        · refine ⟨?_, ?_, ?_⟩
          · intro v hv
            simp only [userAdd] at hv
            split at hv
            · exact lower_mem_setAdd hru hv
            · split at hv
              · exact hru v hv
              · exact hru v hv
          · intro v hv
            simp only [userAdd] at hv
            split at hv
            · exact hen v hv
            · split at hv
              · exact lower_mem_setAdd hen hv
              · exact hen v hv
          · intro p hp
            exact counts_inv_alSet hcounts _ p (mem_alErase _ _ p hp)
        · refine ⟨hru, hen, ?_⟩
          exact counts_inv_alSet hcounts _
  | add w lang =>
      simp only [dictStep, add_word]
      refine ⟨?_, ?_, ?_⟩
      · intro v hv
        simp only [userAdd] at hv
        split at hv
        · exact lower_mem_setAdd hru hv
        · split at hv
          · exact hru v hv
          · exact hru v hv
      · intro v hv
        simp only [userAdd] at hv
        split at hv
        · exact hen v hv
        · split at hv
          · exact lower_mem_setAdd hen hv
          · exact hen v hv
      · intro p hp
        have hp' := mem_alErase _ _ p hp
        simp only [userAdd] at hp'
        split at hp' <;> first
          | exact hcounts p hp'
          | (split at hp' <;> exact hcounts p hp')
  | remove w lang =>
      simp only [dictStep, remove_word]
      split
      · exact ⟨fun v hv => hru v (List.mem_of_mem_filter hv), hen, hcounts⟩
      · split
        · exact ⟨hru, fun v hv => hen v (List.mem_of_mem_filter hv), hcounts⟩
        · exact ⟨hru, hen, hcounts⟩

theorem dictRun_lowerInv (cfg : Config) (ops : List DictOp) :
    ∀ st : DictState, lowerInv st → lowerInv (dictRun cfg ops st) := by
  induction ops with
  | nil => exact fun st h => h
  | cons op rest ih =>
      intro st h
      exact ih _ (dictStep_lowerInv cfg st op h)

/-- **C10**: from an initial state with empty user vocabulary and counters,
every sequence of dictionary operations preserves: all stored user words are
lowercase, and every counter key is `language ++ ":" ++ word` for a lowercase
word. Moreover each operation lowercases its word argument before use, so two
words with the same lowercasing are indistinguishable to `check`,
`record_word`, `add_word` and `remove_word`. -/
theorem C10_lowercase_invariant (cfg : Config) (ru en : List (List Char))
    (ops : List DictOp) :
    lowerInv (dictRun cfg ops (initDict ru en))
  ∧ (∀ (w w' : List Char) (lang : String) (st : DictState),
       pyLower w = pyLower w' →
         check w lang st = check w' lang st
         ∧ record_word w lang st cfg = record_word w' lang st cfg
         ∧ add_word w lang st = add_word w' lang st
         ∧ remove_word w lang st = remove_word w' lang st) := by
  constructor
  · apply dictRun_lowerInv
    refine ⟨?_, ?_, ?_⟩
    · intro v hv
      simp [initDict] at hv
    · intro v hv
      simp [initDict] at hv
    · intro p hp
      simp [initDict] at hp
  · intro w w' lang st hww
    refine ⟨?_, ?_, ?_, ?_⟩
    · unfold check
      rw [hww]
    · simp only [record_word]
      rw [hww]
    · simp only [add_word]
      rw [hww]
    · simp only [remove_word]
      rw [hww]

/-- Witness for C10: `check` cannot tell `"Привет"` from `"привет"`. -/
theorem C10_lowercase_invariant_witness :
    check "Привет".toList "ru" testDict = check "привет".toList "ru" testDict :=
  ((C10_lowercase_invariant {} testDict.ruWords testDict.enWords []).2
    "Привет".toList "привет".toList "ru" testDict (by decide)).1

end RuSwitch
